import Mathlib

/-!
Shallow embedding of `jsontableschema_sql/mappers.py` and proofs about it.

Strings are modelled as `List Char` so that Python string operations
(`startswith`, `replace(old, new, 1)`, `'%03d' % i`, `str.format`) can be
embedded with their exact semantics and reasoned about by structural
induction.  The Python parameter `prefix` is rendered as `pfx` throughout.
-/

namespace JTS

abbrev Str := List Char

/-- Coerce a Lean string literal to the `List Char` representation. -/
def chars (s : String) : Str := s.data

/-- Python `s.startswith(p)`. -/
def pyStartswith : Str → Str → Bool
  | _, [] => true
  | [], _ :: _ => false
  | a :: s, b :: p => a == b && pyStartswith s p

/-- Helper for `pyReplaceFirst` when the pattern is nonempty: scan for the
first occurrence of `pat` and replace it by `repl`. -/
def replaceFirstAux (pat repl : Str) : Str → Str
  | [] => []
  | c :: s =>
    if pyStartswith (c :: s) pat then repl ++ (c :: s).drop pat.length
    else c :: replaceFirstAux pat repl s

/-- Python `s.replace(pat, repl, 1)`: replace the first occurrence of `pat`
in `s` by `repl` (for the empty pattern Python inserts `repl` in front). -/
def pyReplaceFirst (s pat repl : Str) : Str :=
  match pat with
  | [] => repl ++ s
  | _ :: _ => replaceFirstAux pat repl s

/-- Python `'%03d' % n` for a natural number: decimal digits, left-padded
with zeros to width 3. -/
def pyFormat03d (n : Nat) : Str :=
  let s := Nat.toDigits 10 n
  List.replicate (3 - s.length) '0' ++ s

/-- Python `template.format(arg)`: replace the first `\x7b\x7d` placeholder pair
by `arg`; a template without a placeholder is returned unchanged (extra
arguments to `format` are ignored by Python). -/
def pyFormat1 (template arg : Str) : Str :=
  pyReplaceFirst template [Char.ofNat 123, Char.ofNat 125] arg

/-- `mappers.bucket_to_tablename(prefix, bucket)`: `prefix + bucket`. -/
def bucket_to_tablename (pfx bucket : Str) : Str := pfx ++ bucket

/-- `mappers.tablename_to_bucket(prefix, tablename)`:
`tablename.replace(prefix, '', 1)` if `tablename.startswith(prefix)`,
else `None`. -/
def tablename_to_bucket (pfx tablename : Str) : Option Str :=
  if pyStartswith tablename pfx then some (pyReplaceFirst tablename pfx []) else none

theorem pyStartswith_append (p r : Str) : pyStartswith (p ++ r) p = true := by
  induction p with
  | nil =>
    cases r <;> rfl
  | cons a p ih => simp [pyStartswith, ih]

theorem drop_len_append {α : Type} (l₁ l₂ : List α) :
    List.drop l₁.length (l₁ ++ l₂) = l₂ := by
  induction l₁ with
  | nil => rfl
  | cons a l ih => simp [ih]

theorem pyReplaceFirst_strip (p r : Str) : pyReplaceFirst (p ++ r) p [] = r := by
  cases p with
  | nil => rfl
  | cons a p =>
    show replaceFirstAux (a :: p) [] (a :: (p ++ r)) = r
    rw [replaceFirstAux]
    have h : pyStartswith (a :: (p ++ r)) (a :: p) = true :=
      pyStartswith_append (a :: p) r
    rw [h]
    simp [drop_len_append (a :: p) r]

theorem tablename_to_bucket_append (p r : Str) :
    tablename_to_bucket p (p ++ r) = some r := by
  unfold tablename_to_bucket
  rw [pyStartswith_append, if_pos rfl, pyReplaceFirst_strip]

/-- C6: for all prefixes `p` and resource names `r`,
`tablename_to_bucket(p, bucket_to_tablename(p, r)) = r`. -/
theorem prefix_name_roundtrip (p r : Str) :
    tablename_to_bucket p (bucket_to_tablename p r) = some r :=
  tablename_to_bucket_append p r

/-- C7: when `t` does not start with `p`, `tablename_to_bucket(p, t)` is the
"no mapping" value `None`, not an error. -/
theorem tablename_no_mapping (p t : Str) (h : pyStartswith t p = false) :
    tablename_to_bucket p t = none := by
  simp [tablename_to_bucket, h]

theorem tablename_no_mapping_witness :
    pyStartswith (chars "ab") (chars "xx") = false ∧
    tablename_to_bucket (chars "xx") (chars "ab") = none :=
  ⟨by decide, tablename_no_mapping (chars "xx") (chars "ab") (by decide)⟩

/-- C10: with the empty prefix the tablename-to-bucket mapping is the
identity; the "no mapping" case is unreachable. -/
theorem empty_prefix_identity (t : Str) : tablename_to_bucket [] t = some t := by
  cases t <;> rfl

/-! ## Data model of descriptors and of the SQLAlchemy column/constraint objects -/

/-- A JSON value that is either a bare string or a list of strings, as used by
`primaryKey`, `foreignKeys[].fields` and `foreignKeys[].reference.fields`. -/
inductive StrOrList
  | str (s : Str)
  | list (l : List Str)
deriving DecidableEq

/-- The normalization both translators perform: a bare string is promoted to a
singleton list (`if isinstance(x, six.string_types): x = [x]`). -/
def StrOrList.normalize : StrOrList → List Str
  | .str s => [s]
  | .list l => l

/-- One entry of `descriptor['fields']`.  `required` models
`field.get('constraints', \x7b\x7d).get('required', False)`. -/
structure FieldDesc where
  name : Str
  type_ : Str
  required : Bool
deriving DecidableEq

/-- `foreignKeys[].reference`. -/
structure Reference where
  resource : Str
  fields : StrOrList
deriving DecidableEq

/-- One entry of `descriptor['foreignKeys']`. -/
structure ForeignKeyDesc where
  fields : StrOrList
  reference : Reference
deriving DecidableEq

/-- A schema descriptor.  An absent `foreignKeys` key is modelled as `[]`
(the source reads it with `descriptor.get('foreignKeys', [])`). -/
structure Descriptor where
  fields : List FieldDesc
  primaryKey : Option StrOrList
  foreignKeys : List ForeignKeyDesc
deriving DecidableEq

/-- The SQLAlchemy backend column types appearing in the two mapping tables.
`other s` stands for any further backend type (its Python `str()` is `s`);
the geometry classes registered by the extension loaders are of this form. -/
inductive SQLType
  | text | varchar | nvarchar | char | uuid | float | integer | boolean
  | json | jsonb | array | date | time | datetime
  | other (s : Str)
deriving DecidableEq

/-- Python `isinstance(value_of_type t, class k)` restricted to the classes in
the reverse mapping table.  Among those classes the only strict subclass
relationship is postgresql `JSONB < JSON`; `other` types are unrelated to
everything but themselves. -/
def SQLType.isinstanceOf (t k : SQLType) : Bool :=
  t == k || (t == .jsonb && k == .json)

/-- Python `str(column.type)` for the backend types, as used in the
"not supported" error message of the reverse translator. -/
def SQLType.pyrepr : SQLType → Str
  | .text => chars "TEXT"
  | .varchar => chars "VARCHAR"
  | .nvarchar => chars "NVARCHAR"
  | .char => chars "CHAR"
  | .uuid => chars "UUID"
  | .float => chars "FLOAT"
  | .integer => chars "INTEGER"
  | .boolean => chars "BOOLEAN"
  | .json => chars "JSON"
  | .jsonb => chars "JSONB"
  | .array => chars "ARRAY"
  | .date => chars "DATE"
  | .time => chars "TIME"
  | .datetime => chars "DATETIME"
  | .other s => s

/-- An SQLAlchemy `Column(name, type, nullable=..., autoincrement=...)`. -/
structure Column where
  name : Str
  type_ : SQLType
  nullable : Bool
  autoincrement : Bool
deriving DecidableEq

/-- An SQLAlchemy `PrimaryKeyConstraint(*names)`; iterating its `.columns`
yields the named columns in order. -/
structure PrimaryKeyConstraint where
  columns : List Str
deriving DecidableEq

/-- One element of a `ForeignKeyConstraint`: the local column
(`element.parent.name`) and the referenced table/column
(`element.column.table.name` / `element.column.name`), which SQLAlchemy parses
from the qualified string `"table.column"` built by the forward translator. -/
structure FKElement where
  parent : Str
  refTable : Str
  refColumn : Str
deriving DecidableEq

/-- An SQLAlchemy `ForeignKeyConstraint(fields, foreign_fields)`: the paired
elements in order (the two argument lists have equal length whenever the
constraint is well formed). -/
structure ForeignKeyConstraint where
  elements : List FKElement
deriving DecidableEq

/-- A table constraint: SQLAlchemy `PrimaryKeyConstraint` or
`ForeignKeyConstraint` (the reverse translator dispatches on `isinstance`). -/
inductive Constraint
  | pk (c : PrimaryKeyConstraint)
  | fk (c : ForeignKeyConstraint)
deriving DecidableEq

/-- An SQLAlchemy `Index(name, *columns)`. -/
structure TableIndex where
  name : Str
  columns : List Column
deriving DecidableEq

/-- A raised Python exception: its class name and its message. -/
structure PyErr where
  className : Str
  message : Str
deriving DecidableEq

/-- `'Type "%s" of field "%s" is not supported' % (t, n)`. -/
def typeErrMsgField (t n : Str) : Str :=
  chars "Type \"" ++ t ++ chars "\" of field \"" ++ n ++ chars "\" is not supported"

/-- `'Type "%s" of column "%s" is not supported' % (t, n)`. -/
def typeErrMsgColumn (t n : Str) : Str :=
  chars "Type \"" ++ t ++ chars "\" of column \"" ++ n ++ chars "\" is not supported"

/-! ## descriptor_to_columns_and_constraints

All definitions take the module-level variable `geometry_type` (default
`JSONB`, overwritten by the extension loaders) as an explicit parameter `gt`.
-/

/-- The fixed logical-type → backend-type mapping table of
`descriptor_to_columns_and_constraints`. -/
def typeMapping (gt : SQLType) : List (Str × SQLType) :=
  [(chars "string", .text), (chars "number", .float), (chars "integer", .integer),
   (chars "boolean", .boolean), (chars "object", .jsonb), (chars "array", .jsonb),
   (chars "date", .date), (chars "time", .time), (chars "datetime", .datetime),
   (chars "geojson", gt)]

/-- The `for field in descriptor['fields']` loop: build one `Column` per field
(`nullable` unless `constraints.required`), raising
`TypeError('Type "%s" of field "%s" is not supported')` on the first field
whose type is outside the mapping table. -/
def fieldsToColumns (gt : SQLType) : List FieldDesc → Except PyErr (List Column)
  | [] => .ok []
  | f :: rest =>
    match (typeMapping gt).lookup f.type_ with
    | none => .error ⟨chars "TypeError", typeErrMsgField f.type_ f.name⟩
    | some t =>
      match fieldsToColumns gt rest with
      | .error e => .error e
      | .ok cols => .ok (⟨f.name, t, !f.required, false⟩ :: cols)

/-- `column_mapping[field['name']] = column`, built over the field columns in
order; as in a Python dict, a later assignment to the same name wins, which the
head-first lookup over this prepend-built list reproduces. -/
def buildColumnMapping (cols : List Column) : List (Str × Column) :=
  cols.foldl (fun m c => (c.name, c) :: m) []

/-- `[column_mapping[field_name] for field_name in index_definition]`,
raising `KeyError` on a name missing from the mapping. -/
def lookupColumns (m : List (Str × Column)) : List Str → Except PyErr (List Column)
  | [] => .ok []
  | n :: rest =>
    match m.lookup n with
    | none => .error ⟨chars "KeyError", n⟩
    | some c =>
      match lookupColumns m rest with
      | .error e => .error e
      | .ok cs => .ok (c :: cs)

/-- The `for i, index_definition in enumerate(index_fields)` loop:
one `Index(tablename + '_ix%03d' % i, *columns)` per group, `i` counting
from `start`. -/
def buildIndexes (tablename : Str) (m : List (Str × Column)) :
    Nat → List (List Str) → Except PyErr (List TableIndex)
  | _, [] => .ok []
  | i, g :: rest =>
    match lookupColumns m g with
    | .error e => .error e
    | .ok cs =>
      match buildIndexes tablename m (i + 1) rest with
      | .error e => .error e
      | .ok ixs => .ok (⟨tablename ++ chars "_ix" ++ pyFormat03d i, cs⟩ :: ixs)

/-- Primary-key composition: promote a bare string to a singleton, then
prepend the autoincrement column name when configured (or make it the sole
entry when no key is declared). -/
def pkList (pk : Option StrOrList) (autoincrement : Option Str) : Option (List Str) :=
  let pk' := pk.map StrOrList.normalize
  match autoincrement with
  | some a => some (a :: pk'.getD [])
  | none => pk'

/-- The `for fk in fks` loop.  The accumulator `tablename` mirrors the source
exactly: it starts as the current table's name and is REASSIGNED
(`tablename = bucket_to_tablename(prefix, resource)`) whenever a foreign key
references a resource other than the literal `'self'`; the reassigned value
persists into later iterations. -/
def buildForeignKeys (pfx : Str) : Str → List ForeignKeyDesc → List Constraint
  | _, [] => []
  | tablename, fkd :: rest =>
    let fields := fkd.fields.normalize
    let resource := fkd.reference.resource
    let foreign_fields := fkd.reference.fields.normalize
    let tablename' :=
      if resource ≠ chars "self" then bucket_to_tablename pfx resource else tablename
    let elements := List.zipWith (fun f ff => FKElement.mk f tablename' ff) fields foreign_fields
    .fk ⟨elements⟩ :: buildForeignKeys pfx tablename' rest

/-- The leading synthetic column added when `autoincrement` is configured:
`Column(autoincrement, Integer, autoincrement=True, nullable=False)`,
appended before any descriptor field. -/
def autoColumns : Option Str → List Column
  | some a => [⟨a, .integer, false, true⟩]
  | none => []

/-- `if pk is not None: constraints.append(PrimaryKeyConstraint(*pk))`. -/
def pkConstraints (pk : Option StrOrList) (autoincrement : Option Str) : List Constraint :=
  match pkList pk autoincrement with
  | some l => [.pk ⟨l⟩]
  | none => []

/-- `mappers.descriptor_to_columns_and_constraints(prefix, bucket, descriptor,
index_fields, autoincrement)`.  Errors short-circuit the whole call exactly as
a raised Python exception does. -/
def descriptor_to_columns_and_constraints (gt : SQLType) (pfx bucket : Str)
    (descriptor : Descriptor) (index_fields : List (List Str)) (autoincrement : Option Str) :
    Except PyErr (List Column × List Constraint × List TableIndex) :=
  let tablename := bucket_to_tablename pfx bucket
  match fieldsToColumns gt descriptor.fields with
  | .error e => .error e
  | .ok fieldCols =>
    match buildIndexes tablename (buildColumnMapping fieldCols) 0 index_fields with
    | .error e => .error e
    | .ok indexes =>
      .ok (autoColumns autoincrement ++ fieldCols,
           pkConstraints descriptor.primaryKey autoincrement ++
             buildForeignKeys pfx tablename descriptor.foreignKeys,
           indexes)

/-! ## columns_and_constraints_to_descriptor -/

/-- A foreign key of a reconstructed descriptor.  `resource` is an `Option`
because the source may assign it `tablename_to_bucket(...)`, which can be
Python `None`. -/
structure RForeignKey where
  fields : StrOrList
  resource : Option Str
  ref_fields : StrOrList
deriving DecidableEq

/-- A reconstructed schema descriptor.  An omitted `primaryKey`/`foreignKeys`
key is modelled as `none`/`[]`. -/
structure RDescriptor where
  fields : List FieldDesc
  primaryKey : Option StrOrList
  foreignKeys : List RForeignKey
deriving DecidableEq

/-- The fixed backend-type → logical-type mapping table of
`columns_and_constraints_to_descriptor`, in dict insertion order, extended by
`mapping[geometry_type] = 'geojson'` when the registered geometry type is not
the plain `JSONB` default. -/
def reverseTypeMapping (gt : SQLType) : List (SQLType × Str) :=
  [(.text, chars "string"), (.varchar, chars "string"), (.nvarchar, chars "string"),
   (.char, chars "string"), (.uuid, chars "string"), (.float, chars "number"),
   (.integer, chars "integer"), (.boolean, chars "boolean"), (.json, chars "object"),
   (.jsonb, chars "object"), (.array, chars "array"), (.date, chars "date"),
   (.time, chars "time"), (.datetime, chars "datetime")]
  ++ (if gt ≠ .jsonb then [(gt, chars "geojson")] else [])

/-- The `for key, value in mapping.items(): if isinstance(column.type, key)`
scan: every matching entry overwrites `field_type`, so the LAST match wins. -/
def reverseLookup (gt : SQLType) (t : SQLType) : Option Str :=
  (reverseTypeMapping gt).foldl
    (fun acc kv => if t.isinstanceOf kv.1 then some kv.2 else acc) none

/-- The `for column in columns` loop of the reverse translator: skip the
column whose name equals `autoincrement_column`, reverse-map the backend type
(raising `TypeError` when nothing matches), and mark the field required
exactly when the column is not nullable. -/
def columnsToFields (gt : SQLType) (autoc : Option Str) :
    List Column → Except PyErr (List FieldDesc)
  | [] => .ok []
  | c :: rest =>
    if autoc = some c.name then columnsToFields gt autoc rest
    else
      match reverseLookup gt c.type_ with
      | none => .error ⟨chars "TypeError", typeErrMsgColumn c.type_.pyrepr c.name⟩
      | some t =>
        match columnsToFields gt autoc rest with
        | .error e => .error e
        | .ok fs => .ok (⟨c.name, t, !c.nullable⟩ :: fs)

/-- The `pk` list collected by the primary-key reconstruction loop: the
column names of every `PrimaryKeyConstraint` in order, skipping the
autoincrement column. -/
def pkCollect (autoc : Option Str) (constraints : List Constraint) : List Str :=
  constraints.foldr
    (fun c acc =>
      (match c with
       | .pk p => p.columns.filter (fun n => autoc ≠ some n)
       | .fk _ => []) ++ acc) []

/-- Primary-key reconstruction: omit the key when the collected list is
empty, collapse a singleton to a bare string. -/
def reconstructPK (autoc : Option Str) (constraints : List Constraint) : Option StrOrList :=
  match pkCollect autoc constraints with
  | [] => none
  | [x] => some (.str x)
  | l => some (.list l)

/-- The `resource` computed while walking one constraint's elements: it
starts as `'self'` and is reassigned
(`tablename_to_bucket(prefix, element.column.table.name)`) by every element
whose referenced table differs from the current table. -/
def recoverResource (pfx tablename : Str) (c : ForeignKeyConstraint) : Option Str :=
  c.elements.foldl
    (fun acc e => if e.refTable ≠ tablename then tablename_to_bucket pfx e.refTable else acc)
    (some (chars "self"))

/-- Reconstruction of one foreign key from a `ForeignKeyConstraint`: local
names from `element.parent.name`, referenced names from
`element.column.name`, in element order; singleton field lists are collapsed
to bare strings (the two lists always have equal length). -/
def recoverFK (pfx tablename : Str) (c : ForeignKeyConstraint) : RForeignKey :=
  match c.elements.map FKElement.parent, c.elements.map FKElement.refColumn with
  | [f], [ff] => ⟨.str f, recoverResource pfx tablename c, .str ff⟩
  | fs, ffs => ⟨.list fs, recoverResource pfx tablename c, .list ffs⟩

/-- The `for constraint in constraints` loop collecting foreign keys. -/
def reconstructFKs (pfx tablename : Str) (constraints : List Constraint) : List RForeignKey :=
  constraints.foldr
    (fun c acc =>
      match c with
      | .fk f => recoverFK pfx tablename f :: acc
      | .pk _ => acc) []

/-- `mappers.columns_and_constraints_to_descriptor(prefix, tablename, columns,
constraints, autoincrement_column)`. -/
def columns_and_constraints_to_descriptor (gt : SQLType) (pfx tablename : Str)
    (columns : List Column) (constraints : List Constraint) (autoc : Option Str) :
    Except PyErr RDescriptor :=
  match columnsToFields gt autoc columns with
  | .error e => .error e
  | .ok fields =>
    .ok ⟨fields, reconstructPK autoc constraints, reconstructFKs pfx tablename constraints⟩

/-! ## load_sde_support: to_geojson and SDE.result_processor

The third-party geometry libraries are modelled opaquely: a shapely geometry
is identified with the WKT text it was loaded from (`shp_loads` is the
identity on that text), `shapely.geometry.mapping` produces a GeoJSON record
carrying that payload and no `crs`, and the pyproj reprojection preserves the
payload.  The `crs` handling, which is what C5 and C9 are about, is embedded
from the source verbatim. -/

/-- The `crs` member a serialized GeoJSON object carries:
`\x7b'type':'name','properties':\x7b'name': ...\x7d\x7d`. -/
structure CRS where
  ctype : Str
  name : Str
deriving DecidableEq

/-- A (serialized) GeoJSON object: the geometry payload and the optional
`crs` member. -/
structure GeoJSON where
  payload : Str
  crs : Option CRS
deriving DecidableEq

/-- `shapely.geometry.mapping(shp)`: the GeoJSON form of the geometry, with
no `crs` member yet. -/
def shapeMapping (shp : Str) : GeoJSON := ⟨shp, none⟩

/-- Python truthiness of the optional integer srid arguments
(`None` and `0` are falsy). -/
def pyTruthy : Option Int → Bool
  | none => false
  | some n => n != 0

/-- Decimal rendering of an integer, as Python `str.format` would produce. -/
def intToStr (n : Int) : Str := (toString n).data

/-- `to_geojson(shp)` from `load_sde_support`: pick the srid
(`from_srid` if only it is truthy, else `to_srid` if truthy, else 4326) and
set `geojson['crs'] = \x7b'type':'name','properties':\x7b'name':'EPSG:'.format(srid)\x7d\x7d`.
Note the source's format template `'EPSG:'` contains no placeholder. -/
def to_geojson (from_srid to_srid : Option Int) (shp : Str) : GeoJSON :=
  let geojson := shapeMapping shp
  let srid : Int :=
    if pyTruthy from_srid && !pyTruthy to_srid then from_srid.getD 0
    else if pyTruthy to_srid then to_srid.getD 0
    else 4326
  { geojson with crs := some ⟨chars "name", pyFormat1 (chars "EPSG:") (intToStr srid)⟩ }

/-- `transform(wkt)` from `load_sde_support`: load the WKT, apply the pyproj
reprojection (payload-preserving in this model), serialize to GeoJSON. -/
def sde_transform (from_srid to_srid : Option Int) (wkt : Str) : GeoJSON :=
  to_geojson from_srid to_srid wkt

/-- The `process(value)` closure of `SDE.result_processor`: the empty string,
`None` and the literal `'POINT EMPTY'` yield `None`; otherwise the value (read
out of the LOB in the `'sde'` sub-mode, an identity on the text here) is
decoded, reprojecting exactly when both srids are configured (`is not None`). -/
def sde_result_process (_geometry_support : Str) (from_srid to_srid : Option Int)
    (value : Option Str) : Option GeoJSON :=
  if value = some [] || value = none || value = some (chars "POINT EMPTY") then none
  else
    let v := value.getD []
    if from_srid.isSome && to_srid.isSome then some (sde_transform from_srid to_srid v)
    else some (to_geojson from_srid to_srid v)

/-! ## Semantic equality of a descriptor and a reconstructed descriptor

"Semantically equal" means: identical field lists (name, type, required flag,
in order), the same primary key and the same foreign keys after normalizing
the bare-string/singleton-list collapse that both translators perform. -/

/-- Primary keys compared modulo the singleton/list collapse. -/
def optPKNorm : Option StrOrList → Option (List Str)
  | none => none
  | some p => some p.normalize

/-- One declared foreign key versus one reconstructed foreign key, modulo the
singleton/list collapse on both field lists. -/
def fkSemEq (fkd : ForeignKeyDesc) (rfk : RForeignKey) : Bool :=
  rfk.fields.normalize == fkd.fields.normalize &&
  rfk.resource == some fkd.reference.resource &&
  rfk.ref_fields.normalize == fkd.reference.fields.normalize

/-- Pointwise semantic equality of the foreign-key lists. -/
def allFKSemEq : List ForeignKeyDesc → List RForeignKey → Bool
  | [], [] => true
  | fkd :: fkds, rfk :: rfks => fkSemEq fkd rfk && allFKSemEq fkds rfks
  | _, _ => false

/-- Semantic equality of a descriptor and a reconstructed descriptor. -/
def descSemEq (d : Descriptor) (r : RDescriptor) : Bool :=
  r.fields == d.fields &&
  optPKNorm r.primaryKey == optPKNorm d.primaryKey &&
  allFKSemEq d.foreignKeys r.foreignKeys

/-! ## Claim theorems: geometry result processing (C5, C9) -/

/-- C9: in the enterprise spatial-engine result processor each degenerate
input — the empty string, an absent value, and the literal `'POINT EMPTY'`
marker — decodes to `None` as a valid "no geometry" result, for every
sub-mode and srid configuration, never reaching a failure path. -/
theorem sde_degenerate_values_null (gs : Str) (fs ts : Option Int) :
    sde_result_process gs fs ts (some []) = none ∧
    sde_result_process gs fs ts none = none ∧
    sde_result_process gs fs ts (some (chars "POINT EMPTY")) = none := by
  refine ⟨by simp [sde_result_process], by simp [sde_result_process], ?_⟩
  simp [sde_result_process]

/-- C5 (code bug): with both srids configured (source 2272, destination 4326)
the decoded GeoJSON's `crs.properties.name` is the literal `'EPSG:'` — the
source formats it with `'EPSG:'.format(srid)`, whose template has no
placeholder — and not `'EPSG:4326'`; the same happens in the default case
with neither srid configured. -/
theorem sde_crs_name_missing_srid :
    (sde_result_process (chars "sde-char") (some 2272) (some 4326)
        (some (chars "POLYGON ((0 0, 1 0, 1 1, 0 0))"))).map (fun g => g.crs.map CRS.name)
      = some (some (chars "EPSG:")) ∧
    (sde_result_process (chars "sde-char") none none
        (some (chars "POLYGON ((0 0, 1 0, 1 1, 0 0))"))).map (fun g => g.crs.map CRS.name)
      = some (some (chars "EPSG:")) ∧
    chars "EPSG:" ≠ chars "EPSG:4326" := by
  refine ⟨by decide, by decide, by decide⟩

/-! ## Claim theorem: self-referencing foreign keys (C3) -/

/-- C3 (code bug): a foreign key with `reference.resource = 'self'` that
follows a foreign key referencing another resource is qualified with THAT
resource's table name, not the current table's.  On prefix `p_`, bucket `b`,
with foreign keys `[a → other.x, a → self.a]`, the second constraint's
elements reference table `p_other`, not the current table `p_b`: the source
reassigns the `tablename` variable inside the loop and never restores it. -/
theorem self_fk_after_other_fk_wrong_table :
    descriptor_to_columns_and_constraints .jsonb (chars "p_") (chars "b")
      ⟨[⟨chars "a", chars "string", false⟩], none,
       [⟨.str (chars "a"), ⟨chars "other", .str (chars "x")⟩⟩,
        ⟨.str (chars "a"), ⟨chars "self", .str (chars "a")⟩⟩]⟩ [] none
      = .ok ([⟨chars "a", .text, true, false⟩],
             [.fk ⟨[⟨chars "a", chars "p_other", chars "x"⟩]⟩,
              .fk ⟨[⟨chars "a", chars "p_other", chars "a"⟩]⟩], []) ∧
    bucket_to_tablename (chars "p_") (chars "b") ≠ chars "p_other" := by
  refine ⟨by rfl, by decide⟩

/-! ## Claim theorem: index naming (C8) -/

theorem buildIndexes_names (t : Str) (m : List (Str × Column)) :
    ∀ (gs : List (List Str)) (i : Nat) (l : List TableIndex),
      buildIndexes t m i gs = .ok l →
      l.map TableIndex.name =
        (List.range gs.length).map (fun j => t ++ chars "_ix" ++ pyFormat03d (i + j)) := by
  intro gs
  induction gs with
  | nil =>
    intro i l h
    simp only [buildIndexes] at h
    cases h
    rfl
  | cons g rest ih =>
    intro i l h
    simp only [buildIndexes] at h
    cases hlc : lookupColumns m g with
    | error e => rw [hlc] at h; cases h
    | ok cs =>
      rw [hlc] at h
      cases hbi : buildIndexes t m (i + 1) rest with
      | error e => rw [hbi] at h; cases h
      | ok ixs =>
        rw [hbi] at h
        cases h
        have htail := ih (i + 1) ixs hbi
        have hshift : (List.range rest.length).map
            (fun j => t ++ chars "_ix" ++ pyFormat03d (i + 1 + j))
            = (List.range rest.length).map
              ((fun j => t ++ chars "_ix" ++ pyFormat03d (i + j)) ∘ Nat.succ) := by
          apply List.map_congr_left
          intro j _
          have hj : i + 1 + j = i + Nat.succ j := by omega
          simp [Function.comp_apply, hj]
        rw [List.map_cons, htail, hshift, List.length_cons, List.range_succ_eq_map,
          List.map_cons, List.map_map]
        simp

/-- Inversion of a successful forward translation into its pieces. -/
theorem forward_ok_inv (gt : SQLType) (pfx bucket : Str) (d : Descriptor)
    (index_fields : List (List Str)) (auto : Option Str)
    (cols : List Column) (cons : List Constraint) (ixs : List TableIndex)
    (h : descriptor_to_columns_and_constraints gt pfx bucket d index_fields auto
          = .ok (cols, cons, ixs)) :
    ∃ fieldCols,
      fieldsToColumns gt d.fields = .ok fieldCols ∧
      buildIndexes (bucket_to_tablename pfx bucket) (buildColumnMapping fieldCols)
        0 index_fields = .ok ixs ∧
      cols = autoColumns auto ++ fieldCols ∧
      cons = pkConstraints d.primaryKey auto ++
             buildForeignKeys pfx (bucket_to_tablename pfx bucket) d.foreignKeys := by
  unfold descriptor_to_columns_and_constraints at h
  cases hfc : fieldsToColumns gt d.fields with
  | error e => rw [hfc] at h; simp at h
  | ok fieldCols =>
    rw [hfc] at h
    cases hbi : buildIndexes (bucket_to_tablename pfx bucket)
        (buildColumnMapping fieldCols) 0 index_fields with
    | error e => simp only [] at h; rw [hbi] at h; simp at h
    | ok indexes =>
      simp only [] at h
      rw [hbi] at h
      simp only [Except.ok.injEq, Prod.mk.injEq] at h
      obtain ⟨h1, h2, h3⟩ := h
      exact ⟨fieldCols, rfl, h3 ▸ hbi, h1.symm, h2.symm⟩

/-- C8: for every table and every sequence of index field groups on which the
translation succeeds, the generated index names are exactly the table name
followed by `_ix` and the zero-based group position zero-padded to three
digits, one per group in group order. -/
theorem index_names_deterministic (gt : SQLType) (pfx bucket : Str) (d : Descriptor)
    (index_fields : List (List Str)) (auto : Option Str)
    (cols : List Column) (cons : List Constraint) (ixs : List TableIndex)
    (h : descriptor_to_columns_and_constraints gt pfx bucket d index_fields auto
          = .ok (cols, cons, ixs)) :
    ixs.map TableIndex.name =
      (List.range index_fields.length).map
        (fun i => bucket_to_tablename pfx bucket ++ chars "_ix" ++ pyFormat03d i) := by
  obtain ⟨fieldCols, _, hbi, _, _⟩ :=
    forward_ok_inv gt pfx bucket d index_fields auto cols cons ixs h
  simpa using buildIndexes_names (bucket_to_tablename pfx bucket)
    (buildColumnMapping fieldCols) index_fields 0 ixs hbi

theorem index_names_deterministic_witness :
    descriptor_to_columns_and_constraints .jsonb (chars "prefix_") (chars "foo")
      ⟨[⟨chars "a", chars "string", false⟩, ⟨chars "b", chars "string", false⟩,
        ⟨chars "c", chars "string", false⟩], none, []⟩
      [[chars "a", chars "b"], [chars "c"]] none
      = .ok ([⟨chars "a", .text, true, false⟩, ⟨chars "b", .text, true, false⟩,
              ⟨chars "c", .text, true, false⟩], [],
             [⟨chars "prefix_foo_ix000",
               [⟨chars "a", .text, true, false⟩, ⟨chars "b", .text, true, false⟩]⟩,
              ⟨chars "prefix_foo_ix001", [⟨chars "c", .text, true, false⟩]⟩]) ∧
    [(⟨chars "prefix_foo_ix000",
       [⟨chars "a", .text, true, false⟩, ⟨chars "b", .text, true, false⟩]⟩ : TableIndex),
     ⟨chars "prefix_foo_ix001", [⟨chars "c", .text, true, false⟩]⟩].map TableIndex.name
      = [chars "prefix_foo_ix000", chars "prefix_foo_ix001"] := by
  have h : descriptor_to_columns_and_constraints .jsonb (chars "prefix_") (chars "foo")
      ⟨[⟨chars "a", chars "string", false⟩, ⟨chars "b", chars "string", false⟩,
        ⟨chars "c", chars "string", false⟩], none, []⟩
      [[chars "a", chars "b"], [chars "c"]] none
      = .ok ([⟨chars "a", .text, true, false⟩, ⟨chars "b", .text, true, false⟩,
              ⟨chars "c", .text, true, false⟩], [],
             [⟨chars "prefix_foo_ix000",
               [⟨chars "a", .text, true, false⟩, ⟨chars "b", .text, true, false⟩]⟩,
              ⟨chars "prefix_foo_ix001", [⟨chars "c", .text, true, false⟩]⟩]) := by rfl
  refine ⟨h, ?_⟩
  have := index_names_deterministic _ _ _ _ _ _ _ _ _ h
  rw [this]
  rfl

/-! ## Claim theorems: unsupported-type errors (C2) -/

theorem fieldsToColumns_first_bad (gt : SQLType) :
    ∀ fs : List FieldDesc, (∃ f ∈ fs, (typeMapping gt).lookup f.type_ = none) →
      ∃ f ∈ fs, (typeMapping gt).lookup f.type_ = none ∧
        fieldsToColumns gt fs
          = .error ⟨chars "TypeError", typeErrMsgField f.type_ f.name⟩ := by
  intro fs
  induction fs with
  | nil => rintro ⟨f, hf, -⟩; cases hf
  | cons f₀ rest ih =>
    rintro ⟨f, hf, hbad⟩
    cases hl : (typeMapping gt).lookup f₀.type_ with
    | none =>
      refine ⟨f₀, List.mem_cons_self _ _, hl, ?_⟩
      simp only [fieldsToColumns]
      rw [hl]
    | some t =>
      have hfr : f ∈ rest := by
        rcases List.mem_cons.mp hf with h | h
        · subst h; rw [hl] at hbad; cases hbad
        · exact h
      obtain ⟨g, hg, hgbad, herr⟩ := ih ⟨f, hfr, hbad⟩
      refine ⟨g, List.mem_cons_of_mem _ hg, hgbad, ?_⟩
      simp only [fieldsToColumns]
      rw [hl, herr]

theorem columnsToFields_first_bad (gt : SQLType) (autoc : Option Str) :
    ∀ cs : List Column,
      (∃ c ∈ cs, autoc ≠ some c.name ∧ reverseLookup gt c.type_ = none) →
      ∃ c ∈ cs, autoc ≠ some c.name ∧ reverseLookup gt c.type_ = none ∧
        columnsToFields gt autoc cs
          = .error ⟨chars "TypeError", typeErrMsgColumn c.type_.pyrepr c.name⟩ := by
  intro cs
  induction cs with
  | nil => rintro ⟨c, hc, -⟩; cases hc
  | cons c₀ rest ih =>
    rintro ⟨c, hc, hcauto, hbad⟩
    by_cases hskip : autoc = some c₀.name
    · have hcr : c ∈ rest := by
        rcases List.mem_cons.mp hc with h | h
        · subst h; exact absurd hskip hcauto
        · exact h
      obtain ⟨cb, hcb, hcba, hcbb, herr⟩ := ih ⟨c, hcr, hcauto, hbad⟩
      refine ⟨cb, List.mem_cons_of_mem _ hcb, hcba, hcbb, ?_⟩
      simp only [columnsToFields]
      rw [if_pos hskip, herr]
    · cases hl : reverseLookup gt c₀.type_ with
      | none =>
        refine ⟨c₀, List.mem_cons_self _ _, hskip, hl, ?_⟩
        simp only [columnsToFields]
        rw [if_neg hskip, hl]
      | some t =>
        have hcr : c ∈ rest := by
          rcases List.mem_cons.mp hc with h | h
          · subst h; rw [hl] at hbad; cases hbad
          · exact h
        obtain ⟨cb, hcb, hcba, hcbb, herr⟩ := ih ⟨c, hcr, hcauto, hbad⟩
        refine ⟨cb, List.mem_cons_of_mem _ hcb, hcba, hcbb, ?_⟩
        simp only [columnsToFields]
        rw [if_neg hskip, hl, herr]

/-- C2 counterexample: the raised error's Python class name is the builtin
`TypeError`, not `UnsupportedTypeError`, in both translation directions. -/
theorem unsupported_type_error_class_name :
    descriptor_to_columns_and_constraints .jsonb [] (chars "t")
      ⟨[⟨chars "f", chars "unsupported-type", false⟩], none, []⟩ [] none
      = .error ⟨chars "TypeError",
                typeErrMsgField (chars "unsupported-type") (chars "f")⟩ ∧
    columns_and_constraints_to_descriptor .jsonb [] (chars "t")
      [⟨chars "col", .other (chars "BLOB"), true, false⟩] [] none
      = .error ⟨chars "TypeError", typeErrMsgColumn (chars "BLOB") (chars "col")⟩ ∧
    chars "TypeError" ≠ chars "UnsupportedTypeError" := by
  refine ⟨by rfl, by rfl, by decide⟩

/-- C2 (amended): whenever some field's logical type is outside the fixed
mapping table, `descriptor_to_columns_and_constraints` fails with a
`TypeError` whose message carries the offending type name and field name, and
whenever some non-skipped column's backend type matches no entry of the
reverse mapping, `columns_and_constraints_to_descriptor` fails with a
`TypeError` carrying the offending backend type and column name; in both
directions the error is fatal to the whole call and no partial output is
produced. -/
theorem unsupported_type_fatal (gt : SQLType) (pfx bucket tablename : Str)
    (d : Descriptor) (index_fields : List (List Str)) (auto : Option Str)
    (cols : List Column) (cons : List Constraint) (autoc : Option Str) :
    ((∃ f ∈ d.fields, (typeMapping gt).lookup f.type_ = none) →
      ∃ f ∈ d.fields, (typeMapping gt).lookup f.type_ = none ∧
        descriptor_to_columns_and_constraints gt pfx bucket d index_fields auto
          = .error ⟨chars "TypeError", typeErrMsgField f.type_ f.name⟩) ∧
    ((∃ c ∈ cols, autoc ≠ some c.name ∧ reverseLookup gt c.type_ = none) →
      ∃ c ∈ cols, autoc ≠ some c.name ∧ reverseLookup gt c.type_ = none ∧
        columns_and_constraints_to_descriptor gt pfx tablename cols cons autoc
          = .error ⟨chars "TypeError", typeErrMsgColumn c.type_.pyrepr c.name⟩) := by
  constructor
  · intro hex
    obtain ⟨f, hf, hbad, herr⟩ := fieldsToColumns_first_bad gt d.fields hex
    refine ⟨f, hf, hbad, ?_⟩
    unfold descriptor_to_columns_and_constraints
    rw [herr]
  · intro hex
    obtain ⟨c, hc, hca, hbad, herr⟩ := columnsToFields_first_bad gt autoc cols hex
    refine ⟨c, hc, hca, hbad, ?_⟩
    unfold columns_and_constraints_to_descriptor
    rw [herr]

theorem unsupported_type_fatal_witness :
    (∃ f ∈ ([⟨chars "f", chars "unsupported-type", false⟩] : List FieldDesc),
      (typeMapping .jsonb).lookup f.type_ = none ∧
      descriptor_to_columns_and_constraints .jsonb [] (chars "t")
        ⟨[⟨chars "f", chars "unsupported-type", false⟩], none, []⟩ [] none
        = .error ⟨chars "TypeError", typeErrMsgField f.type_ f.name⟩) ∧
    (∃ c ∈ ([⟨chars "col", .other (chars "BLOB"), true, false⟩] : List Column),
      (none : Option Str) ≠ some c.name ∧ reverseLookup .jsonb c.type_ = none ∧
      columns_and_constraints_to_descriptor .jsonb [] (chars "t")
        [⟨chars "col", .other (chars "BLOB"), true, false⟩] [] none
        = .error ⟨chars "TypeError", typeErrMsgColumn c.type_.pyrepr c.name⟩) := by
  have h := unsupported_type_fatal .jsonb [] (chars "t") (chars "t")
    ⟨[⟨chars "f", chars "unsupported-type", false⟩], none, []⟩ [] none
    [⟨chars "col", .other (chars "BLOB"), true, false⟩] [] none
  exact ⟨h.1 ⟨_, List.mem_cons_self _ _, by rfl⟩,
         h.2 ⟨_, List.mem_cons_self _ _, by simp, by rfl⟩⟩

/-! ## Claim theorem: autoincrement handling (C4) -/

theorem columnsToFields_no_auto (gt : SQLType) (a : Str) :
    ∀ (cs : List Column) (fs : List FieldDesc),
      columnsToFields gt (some a) cs = .ok fs → ∀ f ∈ fs, f.name ≠ a := by
  intro cs
  induction cs with
  | nil =>
    intro fs h f hf
    simp only [columnsToFields] at h
    cases h
    cases hf
  | cons c rest ih =>
    intro fs h f hf
    simp only [columnsToFields] at h
    by_cases hskip : (some a : Option Str) = some c.name
    · rw [if_pos hskip] at h
      exact ih fs h f hf
    · rw [if_neg hskip] at h
      cases hl : reverseLookup gt c.type_ with
      | none => rw [hl] at h; cases h
      | some t =>
        rw [hl] at h
        cases hrest : columnsToFields gt (some a) rest with
        | error e => rw [hrest] at h; cases h
        | ok fs' =>
          rw [hrest] at h
          cases h
          rcases List.mem_cons.mp hf with h1 | h1
          · subst h1
            exact fun hna => hskip (congrArg some hna.symm)
          · exact ih fs' hrest f h1

theorem mem_pkCollect_ne (a : Str) :
    ∀ (l : List Constraint) (n : Str), n ∈ pkCollect (some a) l → n ≠ a := by
  intro l
  induction l with
  | nil => intro n hn; cases hn
  | cons c rest ih =>
    intro n hn
    unfold pkCollect at hn
    rw [List.foldr_cons] at hn
    rcases List.mem_append.mp hn with h | h
    · cases c with
      | pk p =>
        have hmem := List.mem_filter.mp h
        have hd : (some a : Option Str) ≠ some n := of_decide_eq_true hmem.2
        exact fun hna => hd (congrArg some hna.symm)
      | fk f => cases h
    · exact ih n h

theorem reconstructPK_no_auto (a : Str) (l : List Constraint) (p : StrOrList)
    (h : reconstructPK (some a) l = some p) : a ∉ p.normalize := by
  intro ha
  have hmem : a ∈ pkCollect (some a) l := by
    unfold reconstructPK at h
    rcases hc : pkCollect (some a) l with _ | ⟨x, _ | ⟨y, t⟩⟩ <;> rw [hc] at h
    · cases h
    · cases h
      simpa [StrOrList.normalize] using ha
    · cases h
      simpa [StrOrList.normalize] using ha
  exact mem_pkCollect_ne a l a hmem rfl

/-- C4: with an autoincrement column name provided, the forward translation
places a non-nullable integer autoincrement column first in column order and
prepends its name to the declared primary key (or makes it the sole primary
key when none is declared); the reverse translation called with the same name
omits that column entirely from the reconstructed descriptor's fields and
primary key. -/
theorem autoincrement_transparent (gt : SQLType) (pfx bucket : Str) (d : Descriptor)
    (index_fields : List (List Str)) (a : Str)
    (cols : List Column) (cons : List Constraint) (ixs : List TableIndex)
    (h : descriptor_to_columns_and_constraints gt pfx bucket d index_fields (some a)
          = .ok (cols, cons, ixs)) :
    (∃ rest, cols = ⟨a, .integer, false, true⟩ :: rest) ∧
    (∃ rest, cons
        = .pk ⟨a :: ((d.primaryKey.map StrOrList.normalize).getD [])⟩ :: rest) ∧
    (∀ rd, columns_and_constraints_to_descriptor gt pfx (bucket_to_tablename pfx bucket)
        cols cons (some a) = .ok rd →
      (∀ f ∈ rd.fields, f.name ≠ a) ∧ ∀ p, rd.primaryKey = some p → a ∉ p.normalize) := by
  obtain ⟨fieldCols, hfc, hbi, hcols, hcons⟩ :=
    forward_ok_inv gt pfx bucket d index_fields (some a) cols cons ixs h
  refine ⟨⟨fieldCols, by simpa [autoColumns] using hcols⟩, ?_, ?_⟩
  · refine ⟨buildForeignKeys pfx (bucket_to_tablename pfx bucket) d.foreignKeys, ?_⟩
    rw [hcons]
    congr 1
  · intro rd hrd
    unfold columns_and_constraints_to_descriptor at hrd
    cases hcf : columnsToFields gt (some a) cols with
    | error e => rw [hcf] at hrd; cases hrd
    | ok fs =>
      rw [hcf] at hrd
      cases hrd
      exact ⟨columnsToFields_no_auto gt a cols fs hcf,
             fun p hp => reconstructPK_no_auto a cons p hp⟩

theorem autoincrement_transparent_witness :
    (∃ rest, [(⟨chars "id", SQLType.integer, false, true⟩ : Column),
              ⟨chars "x", .text, true, false⟩]
        = ⟨chars "id", .integer, false, true⟩ :: rest) ∧
    (∃ rest, [Constraint.pk ⟨[chars "id", chars "x"]⟩]
        = .pk ⟨chars "id" ::
            (((some (StrOrList.str (chars "x"))).map StrOrList.normalize).getD [])⟩
            :: rest) ∧
    (∀ rd, columns_and_constraints_to_descriptor .jsonb [] (chars "t")
        [⟨chars "id", .integer, false, true⟩, ⟨chars "x", .text, true, false⟩]
        [.pk ⟨[chars "id", chars "x"]⟩] (some (chars "id")) = .ok rd →
      (∀ f ∈ rd.fields, f.name ≠ chars "id") ∧
      ∀ p, rd.primaryKey = some p → chars "id" ∉ p.normalize) := by
  exact autoincrement_transparent .jsonb [] (chars "t")
    ⟨[⟨chars "x", chars "string", false⟩], some (.str (chars "x")), []⟩ [] (chars "id")
    _ _ _ (by rfl)

/-! ## Claim theorems: descriptor round trip (C1) -/

/-- The logical types on which the type mapping round-trips exactly.
`array` and `geojson` are excluded: both forward to `JSONB` under the default
geometry type and come back as `object`. -/
def roundtripType (t : Str) : Bool :=
  t == chars "string" || t == chars "number" || t == chars "integer" ||
  t == chars "boolean" || t == chars "object" || t == chars "date" ||
  t == chars "time" || t == chars "datetime"

/-- A name-or-list value is well formed when a list form is nonempty. -/
def validSOL : StrOrList → Bool
  | .str _ => true
  | .list l => !l.isEmpty

/-- A well-formed foreign key: nonempty field lists of matching cardinality
(the descriptor format requires `fields` and `reference.fields` to
correspond pairwise). -/
def validFK (fkd : ForeignKeyDesc) : Bool :=
  validSOL fkd.fields && validSOL fkd.reference.fields &&
  (fkd.fields.normalize.length == fkd.reference.fields.normalize.length)

/-- A well-formed primary key: not the empty list. -/
def validPK : Option StrOrList → Bool
  | some (.list []) => false
  | _ => true

/-- All self-referencing foreign keys precede all others (needed because the
source's `tablename` reassignment persists across loop iterations). -/
def selfFKsFirst : List ForeignKeyDesc → Bool
  | [] => true
  | fkd :: rest =>
    if fkd.reference.resource == chars "self" then selfFKsFirst rest
    else rest.all (fun g => g.reference.resource != chars "self")

/-- A non-self foreign key must not name the current bucket explicitly (the
reverse translation folds a reference to the current table back to `self`). -/
def fkResourceOk (bucket : Str) (fkd : ForeignKeyDesc) : Bool :=
  fkd.reference.resource == chars "self" || fkd.reference.resource != bucket

theorem roundtrip_type_lookup (t : Str) (h : roundtripType t = true) :
    ∃ bt, (typeMapping .jsonb).lookup t = some bt ∧
      reverseLookup .jsonb bt = some t := by
  simp only [roundtripType, Bool.or_eq_true, beq_iff_eq] at h
  rcases h with (((((((h | h) | h) | h) | h) | h) | h) | h) <;> subst h <;>
    exact ⟨_, rfl, rfl⟩

theorem fieldsToColumns_roundtrip :
    ∀ fs : List FieldDesc, fs.all (fun f => roundtripType f.type_) = true →
      ∃ cols, fieldsToColumns .jsonb fs = .ok cols ∧
        columnsToFields .jsonb none cols = .ok fs := by
  intro fs
  induction fs with
  | nil => intro _; exact ⟨[], rfl, rfl⟩
  | cons f rest ih =>
    intro hall
    rw [List.all_cons, Bool.and_eq_true] at hall
    obtain ⟨bt, hl, hr⟩ := roundtrip_type_lookup f.type_ hall.1
    obtain ⟨cols, hfc, hcf⟩ := ih hall.2
    refine ⟨⟨f.name, bt, !f.required, false⟩ :: cols, ?_, ?_⟩
    · simp only [fieldsToColumns]
      rw [hl, hfc]
    · simp only [columnsToFields]
      rw [if_neg (by simp), hr, hcf]
      simp [Bool.not_not]

theorem pkCollect_append (autoc : Option Str) (l₁ l₂ : List Constraint) :
    pkCollect autoc (l₁ ++ l₂) = pkCollect autoc l₁ ++ pkCollect autoc l₂ := by
  unfold pkCollect
  rw [List.foldr_append]
  induction l₁ with
  | nil => rfl
  | cons c l ih =>
    rw [List.foldr_cons, List.foldr_cons, ih, List.append_assoc]

theorem pkCollect_fks (autoc : Option Str) :
    ∀ l : List Constraint, (∀ c ∈ l, ∃ f, c = .fk f) → pkCollect autoc l = [] := by
  intro l
  induction l with
  | nil => intro _; rfl
  | cons c rest ih =>
    intro hall
    obtain ⟨f, hf⟩ := hall c (List.mem_cons_self _ _)
    subst hf
    unfold pkCollect
    rw [List.foldr_cons]
    simpa [pkCollect] using ih (fun c hc => hall c (List.mem_cons_of_mem _ hc))

theorem buildForeignKeys_all_fk (pfx : Str) :
    ∀ (l : List ForeignKeyDesc) (T : Str) (c : Constraint),
      c ∈ buildForeignKeys pfx T l → ∃ f, c = .fk f := by
  intro l
  induction l with
  | nil => intro T c hc; cases hc
  | cons fkd rest ih =>
    intro T c hc
    simp only [buildForeignKeys] at hc
    rcases List.mem_cons.mp hc with h | h
    · exact ⟨_, h⟩
    · exact ih _ c h

theorem reconstructFKs_cons_pk (pfx T : Str) (p : PrimaryKeyConstraint)
    (rest : List Constraint) :
    reconstructFKs pfx T (.pk p :: rest) = reconstructFKs pfx T rest := rfl

theorem reconstructFKs_cons_fk (pfx T : Str) (f : ForeignKeyConstraint)
    (rest : List Constraint) :
    reconstructFKs pfx T (.fk f :: rest)
      = recoverFK pfx T f :: reconstructFKs pfx T rest := rfl

theorem reconstructFKs_pkConstraints (pfx T : Str) (pk : Option StrOrList)
    (auto : Option Str) (rest : List Constraint) :
    reconstructFKs pfx T (pkConstraints pk auto ++ rest)
      = reconstructFKs pfx T rest := by
  unfold pkConstraints
  cases pkList pk auto with
  | none => rfl
  | some l => exact reconstructFKs_cons_pk pfx T ⟨l⟩ rest

theorem zipWith_fkelem_parent (T : Str) :
    ∀ fs ffs : List Str, fs.length = ffs.length →
      (List.zipWith (fun f ff => FKElement.mk f T ff) fs ffs).map FKElement.parent
        = fs := by
  intro fs
  induction fs with
  | nil => intro ffs _; rfl
  | cons a fs ih =>
    intro ffs h
    cases ffs with
    | nil => cases h
    | cons b ffs => simpa using ih ffs (by simpa using h)

theorem zipWith_fkelem_refColumn (T : Str) :
    ∀ fs ffs : List Str, fs.length = ffs.length →
      (List.zipWith (fun f ff => FKElement.mk f T ff) fs ffs).map FKElement.refColumn
        = ffs := by
  intro fs
  induction fs with
  | nil =>
    intro ffs h
    cases ffs with
    | nil => rfl
    | cons b ffs => cases h
  | cons a fs ih =>
    intro ffs h
    cases ffs with
    | nil => cases h
    | cons b ffs => simpa using ih ffs (by simpa using h)

theorem zipWith_fkelem_refTable (T : Str) :
    ∀ (fs ffs : List Str) (e : FKElement),
      e ∈ List.zipWith (fun f ff => FKElement.mk f T ff) fs ffs → e.refTable = T := by
  intro fs
  induction fs with
  | nil => intro ffs e he; cases he
  | cons a fs ih =>
    intro ffs e he
    cases ffs with
    | nil => cases he
    | cons b ffs =>
      rcases List.mem_cons.mp he with h | h
      · subst h; rfl
      · exact ih ffs e h

theorem zipWith_fkelem_ne_nil (T : Str) (fs ffs : List Str)
    (h1 : fs ≠ []) (h2 : ffs ≠ []) :
    List.zipWith (fun f ff => FKElement.mk f T ff) fs ffs ≠ [] := by
  cases fs with
  | nil => exact absurd rfl h1
  | cons a fs =>
    cases ffs with
    | nil => exact absurd rfl h2
    | cons b ffs => simp

theorem validSOL_normalize_ne_nil (s : StrOrList) (h : validSOL s = true) :
    s.normalize ≠ [] := by
  cases s with
  | str x => simp [StrOrList.normalize]
  | list l =>
    cases l with
    | nil => simp [validSOL, List.isEmpty] at h
    | cons a t => simp [StrOrList.normalize]

theorem fk_fold_resource_const (pfx T : Str) :
    ∀ (es : List FKElement) (acc : Option Str), (∀ e ∈ es, e.refTable = T) →
      es.foldl (fun acc e =>
        if e.refTable ≠ T then tablename_to_bucket pfx e.refTable else acc) acc
        = acc := by
  intro es
  induction es with
  | nil => intro acc _; rfl
  | cons e es ih =>
    intro acc hall
    rw [List.foldl_cons]
    have he : e.refTable = T := hall e (List.mem_cons_self _ _)
    rw [if_neg (by simp [he])]
    exact ih acc fun e' h' => hall e' (List.mem_cons_of_mem _ h')

theorem fk_fold_resource_set (pfx T R : Str) (hne : R ≠ T) :
    ∀ (es : List FKElement) (acc : Option Str), es ≠ [] →
      (∀ e ∈ es, e.refTable = R) →
      es.foldl (fun acc e =>
        if e.refTable ≠ T then tablename_to_bucket pfx e.refTable else acc) acc
        = tablename_to_bucket pfx R := by
  intro es
  induction es with
  | nil => intro acc h _; exact absurd rfl h
  | cons e es ih =>
    intro acc _ hall
    rw [List.foldl_cons]
    have he : e.refTable = R := hall e (List.mem_cons_self _ _)
    rw [he, if_pos hne]
    cases hes : es with
    | nil => rfl
    | cons e2 es2 =>
      rw [← hes]
      exact ih (tablename_to_bucket pfx R) (by simp [hes])
        (fun e' h' => hall e' (List.mem_cons_of_mem _ h'))

theorem recoverFK_spec (pfx T : Str) (c : ForeignKeyConstraint) :
    (recoverFK pfx T c).fields.normalize = c.elements.map FKElement.parent ∧
    (recoverFK pfx T c).ref_fields.normalize = c.elements.map FKElement.refColumn ∧
    (recoverFK pfx T c).resource = recoverResource pfx T c := by
  unfold recoverFK
  rcases hm : c.elements.map FKElement.parent with _ | ⟨f, _ | ⟨f2, fs⟩⟩ <;>
    rcases hm2 : c.elements.map FKElement.refColumn with _ | ⟨g, _ | ⟨g2, gs⟩⟩ <;>
    simp [StrOrList.normalize]

theorem recoverResource_all_self (pfx T : Str) (c : ForeignKeyConstraint)
    (h : ∀ e ∈ c.elements, e.refTable = T) :
    recoverResource pfx T c = some (chars "self") :=
  fk_fold_resource_const pfx T c.elements (some (chars "self")) h

theorem recoverResource_all_other (pfx T R : Str) (hne : R ≠ T)
    (c : ForeignKeyConstraint) (hnil : c.elements ≠ [])
    (h : ∀ e ∈ c.elements, e.refTable = R) :
    recoverResource pfx T c = tablename_to_bucket pfx R :=
  fk_fold_resource_set pfx T R hne c.elements (some (chars "self")) hnil h

theorem fkSemEq_head (pfx bucket : Str) (fkd : ForeignKeyDesc) (T' : Str)
    (hv : validFK fkd = true)
    (hres : (fkd.reference.resource = chars "self" ∧
             T' = bucket_to_tablename pfx bucket) ∨
            (T' = bucket_to_tablename pfx fkd.reference.resource ∧
             T' ≠ bucket_to_tablename pfx bucket)) :
    fkSemEq fkd (recoverFK pfx (bucket_to_tablename pfx bucket)
      ⟨List.zipWith (fun f ff => FKElement.mk f T' ff)
        fkd.fields.normalize fkd.reference.fields.normalize⟩) = true := by
  rw [validFK, Bool.and_eq_true, Bool.and_eq_true] at hv
  obtain ⟨⟨hs1, hs2⟩, hlen⟩ := hv
  have hlen' : fkd.fields.normalize.length = fkd.reference.fields.normalize.length :=
    by simpa using hlen
  obtain ⟨hrf, hrff, hrres⟩ := recoverFK_spec pfx (bucket_to_tablename pfx bucket)
    ⟨List.zipWith (fun f ff => FKElement.mk f T' ff)
      fkd.fields.normalize fkd.reference.fields.normalize⟩
  rw [fkSemEq, Bool.and_eq_true, Bool.and_eq_true]
  refine ⟨⟨?_, ?_⟩, ?_⟩
  · simp only [beq_iff_eq]
    rw [hrf]
    exact zipWith_fkelem_parent T' _ _ hlen'
  · simp only [beq_iff_eq]
    rw [hrres]
    rcases hres with ⟨hself, hT⟩ | ⟨hT, hTne⟩
    · have hall : ∀ e ∈ List.zipWith (fun f ff => FKElement.mk f T' ff)
          fkd.fields.normalize fkd.reference.fields.normalize,
          e.refTable = bucket_to_tablename pfx bucket :=
        fun e he => (zipWith_fkelem_refTable T' _ _ e he).trans (hT ▸ rfl)
      rw [recoverResource_all_self pfx (bucket_to_tablename pfx bucket) _ hall, hself]
    · have hall : ∀ e ∈ List.zipWith (fun f ff => FKElement.mk f T' ff)
          fkd.fields.normalize fkd.reference.fields.normalize,
          e.refTable = T' := zipWith_fkelem_refTable T' _ _
      have hnil : List.zipWith (fun f ff => FKElement.mk f T' ff)
          fkd.fields.normalize fkd.reference.fields.normalize ≠ [] :=
        zipWith_fkelem_ne_nil T' _ _ (validSOL_normalize_ne_nil _ hs1)
          (validSOL_normalize_ne_nil _ hs2)
      rw [recoverResource_all_other pfx (bucket_to_tablename pfx bucket) T' hTne _
        hnil hall, hT]
      exact tablename_to_bucket_append pfx fkd.reference.resource
  · simp only [beq_iff_eq]
    rw [hrff]
    exact zipWith_fkelem_refColumn T' _ _ hlen'

theorem allFKSemEq_cons (fkd : ForeignKeyDesc) (rest : List ForeignKeyDesc)
    (rfk : RForeignKey) (rfks : List RForeignKey) :
    allFKSemEq (fkd :: rest) (rfk :: rfks)
      = (fkSemEq fkd rfk && allFKSemEq rest rfks) := rfl

theorem fk_roundtrip_nonself (pfx bucket : Str) :
    ∀ (l : List ForeignKeyDesc) (T : Str),
      l.all validFK = true →
      l.all (fun g => g.reference.resource != chars "self") = true →
      l.all (fkResourceOk bucket) = true →
      allFKSemEq l (reconstructFKs pfx (bucket_to_tablename pfx bucket)
        (buildForeignKeys pfx T l)) = true := by
  intro l
  induction l with
  | nil => intro T _ _ _; rfl
  | cons fkd rest ih =>
    intro T hv hns hok
    rw [List.all_cons, Bool.and_eq_true] at hv hns hok
    have hrne : fkd.reference.resource ≠ chars "self" := by simpa using hns.1
    have hrb : fkd.reference.resource ≠ bucket := by
      have hh := hok.1
      rw [fkResourceOk, Bool.or_eq_true] at hh
      rcases hh with h | h
      · exact absurd (by simpa using h) hrne
      · simpa using h
    simp only [buildForeignKeys]
    rw [if_pos hrne, reconstructFKs_cons_fk, allFKSemEq_cons, Bool.and_eq_true]
    exact ⟨fkSemEq_head pfx bucket fkd (bucket_to_tablename pfx fkd.reference.resource)
             hv.1 (Or.inr ⟨rfl, fun hEq => hrb (List.append_cancel_left hEq)⟩),
           ih (bucket_to_tablename pfx fkd.reference.resource) hv.2 hns.2 hok.2⟩

theorem fk_roundtrip_all (pfx bucket : Str) :
    ∀ l : List ForeignKeyDesc,
      l.all validFK = true → selfFKsFirst l = true →
      l.all (fkResourceOk bucket) = true →
      allFKSemEq l (reconstructFKs pfx (bucket_to_tablename pfx bucket)
        (buildForeignKeys pfx (bucket_to_tablename pfx bucket) l)) = true := by
  intro l
  induction l with
  | nil => intro _ _ _; rfl
  | cons fkd rest ih =>
    intro hv hsf hok
    rw [List.all_cons, Bool.and_eq_true] at hv hok
    by_cases hself : fkd.reference.resource = chars "self"
    · have hsf' : selfFKsFirst rest = true := by
        rw [selfFKsFirst] at hsf
        rwa [if_pos (by simp [hself])] at hsf
      simp only [buildForeignKeys]
      rw [if_neg (by simp [hself]), reconstructFKs_cons_fk, allFKSemEq_cons,
        Bool.and_eq_true]
      exact ⟨fkSemEq_head pfx bucket fkd (bucket_to_tablename pfx bucket) hv.1
               (Or.inl ⟨hself, rfl⟩),
             ih hv.2 hsf' hok.2⟩
    · have hns : rest.all (fun g => g.reference.resource != chars "self") = true := by
        rw [selfFKsFirst] at hsf
        rwa [if_neg (by simp [hself])] at hsf
      have hrb : fkd.reference.resource ≠ bucket := by
        have hh := hok.1
        rw [fkResourceOk, Bool.or_eq_true] at hh
        rcases hh with h | h
        · exact absurd (by simpa using h) hself
        · simpa using h
      simp only [buildForeignKeys]
      rw [if_pos hself, reconstructFKs_cons_fk, allFKSemEq_cons, Bool.and_eq_true]
      exact ⟨fkSemEq_head pfx bucket fkd (bucket_to_tablename pfx fkd.reference.resource)
               hv.1 (Or.inr ⟨rfl, fun hEq => hrb (List.append_cancel_left hEq)⟩),
             fk_roundtrip_nonself pfx bucket rest
               (bucket_to_tablename pfx fkd.reference.resource) hv.2 hns hok.2⟩

theorem pkCollect_none_pkConstraints (pk : Option StrOrList) :
    pkCollect none (pkConstraints pk none) = (pk.map StrOrList.normalize).getD [] := by
  cases pk with
  | none => rfl
  | some s =>
    show pkCollect none [.pk ⟨s.normalize⟩] = s.normalize
    simp [pkCollect]

theorem reconstructPK_roundtrip (pk : Option StrOrList) (fkCons : List Constraint)
    (hfk : ∀ c ∈ fkCons, ∃ f, c = .fk f) (hvpk : validPK pk = true) :
    optPKNorm (reconstructPK none (pkConstraints pk none ++ fkCons))
      = optPKNorm pk := by
  have hcol : pkCollect none (pkConstraints pk none ++ fkCons)
      = (pk.map StrOrList.normalize).getD [] := by
    rw [pkCollect_append, pkCollect_fks none fkCons hfk, List.append_nil,
      pkCollect_none_pkConstraints]
  unfold reconstructPK
  rw [hcol]
  cases pk with
  | none => simp [optPKNorm]
  | some s =>
    cases s with
    | str x => simp [StrOrList.normalize, optPKNorm]
    | list l =>
      cases l with
      | nil => simp [validPK] at hvpk
      | cons x t =>
        cases t with
        | nil => simp [StrOrList.normalize, optPKNorm]
        | cons y u => simp [StrOrList.normalize, optPKNorm]

/-- C1 counterexample: a field of logical type `array` round-trips to
`object` — forward maps both `array` and `object` to `JSONB`, and the reverse
mapping sends `JSONB` to `object` — so the reconstructed descriptor is not
semantically equal to the original. -/
theorem roundtrip_fails_on_array :
    descriptor_to_columns_and_constraints .jsonb [] (chars "t")
      ⟨[⟨chars "a", chars "array", false⟩], none, []⟩ [] none
      = .ok ([⟨chars "a", .jsonb, true, false⟩], [], []) ∧
    columns_and_constraints_to_descriptor .jsonb [] (chars "t")
      [⟨chars "a", .jsonb, true, false⟩] [] none
      = .ok ⟨[⟨chars "a", chars "object", false⟩], none, []⟩ ∧
    descSemEq ⟨[⟨chars "a", chars "array", false⟩], none, []⟩
      ⟨[⟨chars "a", chars "object", false⟩], none, []⟩ = false := by
  refine ⟨by rfl, by rfl, by rfl⟩

/-- C1 (amended): for a valid descriptor whose field types avoid `array` and
`geojson` (both collapse to `object`), whose declared primary key is not the
empty list, whose foreign keys are nonempty with matching cardinalities, with
all `self` foreign keys listed before any non-self one, and with no non-self
foreign key naming the current bucket itself, translating with no index
groups and no autoincrement column and translating back (same prefix and
table name, default geometry type) yields a descriptor semantically equal to
the original: same field names, types and required flags in order, the same
primary key and the same foreign keys, modulo identical singleton/list
collapsing on both sides. -/
theorem descriptor_roundtrip (pfx bucket : Str) (d : Descriptor)
    (htypes : d.fields.all (fun f => roundtripType f.type_) = true)
    (hpk : validPK d.primaryKey = true)
    (hfk : d.foreignKeys.all validFK = true)
    (hsf : selfFKsFirst d.foreignKeys = true)
    (hok : d.foreignKeys.all (fkResourceOk bucket) = true) :
    ∃ cols cons ixs rd,
      descriptor_to_columns_and_constraints .jsonb pfx bucket d [] none
        = .ok (cols, cons, ixs) ∧
      columns_and_constraints_to_descriptor .jsonb pfx (bucket_to_tablename pfx bucket)
        cols cons none = .ok rd ∧
      descSemEq d rd = true := by
  obtain ⟨cols, hfc, hcf⟩ := fieldsToColumns_roundtrip d.fields htypes
  refine ⟨cols,
    pkConstraints d.primaryKey none ++
      buildForeignKeys pfx (bucket_to_tablename pfx bucket) d.foreignKeys,
    [],
    ⟨d.fields,
     reconstructPK none (pkConstraints d.primaryKey none ++
       buildForeignKeys pfx (bucket_to_tablename pfx bucket) d.foreignKeys),
     reconstructFKs pfx (bucket_to_tablename pfx bucket)
       (pkConstraints d.primaryKey none ++
         buildForeignKeys pfx (bucket_to_tablename pfx bucket) d.foreignKeys)⟩,
    ?_, ?_, ?_⟩
  · unfold descriptor_to_columns_and_constraints
    rw [hfc]
    simp [buildIndexes, autoColumns]
  · unfold columns_and_constraints_to_descriptor
    rw [hcf]
  · have hfks : ∀ c ∈ buildForeignKeys pfx (bucket_to_tablename pfx bucket)
        d.foreignKeys, ∃ f, c = .fk f :=
      fun c hc => buildForeignKeys_all_fk pfx d.foreignKeys _ c hc
    have hpkEq := reconstructPK_roundtrip d.primaryKey _ hfks hpk
    have hfkEq := fk_roundtrip_all pfx bucket d.foreignKeys hfk hsf hok
    have hskip := reconstructFKs_pkConstraints pfx (bucket_to_tablename pfx bucket)
      d.primaryKey none
      (buildForeignKeys pfx (bucket_to_tablename pfx bucket) d.foreignKeys)
    simp [descSemEq, hpkEq, hskip, hfkEq]

theorem descriptor_roundtrip_witness :
    ∃ cols cons ixs rd,
      descriptor_to_columns_and_constraints .jsonb (chars "p_") (chars "t")
        ⟨[⟨chars "a", chars "string", true⟩, ⟨chars "b", chars "integer", false⟩],
         some (.str (chars "a")),
         [⟨.str (chars "a"), ⟨chars "self", .str (chars "a")⟩⟩,
          ⟨.list [chars "b"], ⟨chars "other", .list [chars "c"]⟩⟩]⟩ [] none
        = .ok (cols, cons, ixs) ∧
      columns_and_constraints_to_descriptor .jsonb (chars "p_")
        (bucket_to_tablename (chars "p_") (chars "t")) cols cons none = .ok rd ∧
      descSemEq
        ⟨[⟨chars "a", chars "string", true⟩, ⟨chars "b", chars "integer", false⟩],
         some (.str (chars "a")),
         [⟨.str (chars "a"), ⟨chars "self", .str (chars "a")⟩⟩,
          ⟨.list [chars "b"], ⟨chars "other", .list [chars "c"]⟩⟩]⟩ rd = true := by
  exact descriptor_roundtrip (chars "p_") (chars "t")
    ⟨[⟨chars "a", chars "string", true⟩, ⟨chars "b", chars "integer", false⟩],
     some (.str (chars "a")),
     [⟨.str (chars "a"), ⟨chars "self", .str (chars "a")⟩⟩,
      ⟨.list [chars "b"], ⟨chars "other", .list [chars "c"]⟩⟩]⟩
    (by decide) (by decide) (by decide) (by decide) (by decide)

end JTS
